import Mathlib

/-!
Verification of the concurrent frame pipeline and camera lifecycle of the
`jetson` person-detection repository, as a shallow embedding in Lean 4.

Embedded code (translated from the Python source):
* `src/vision/yolo_infer.py` — `YOLOInference.predict`, `SharedState`,
  `capture_loop`, `inference_loop`;
* `src/vision/postprocess.py` — `check_intrusion` and its rectangle-overlap
  predicate;
* `src/hardware/camera.py` — `diagnose_camera_error`, `CameraCapture`
  (`read_frame`, `release`);
* `src/main.py` — the orchestrator's all-or-nothing startup and its
  shutdown sequence;
* `src/utils/time_utils.py` — `FPSCounter.update`.

External effects (camera device opens/reads, the neural model, wall-clock
time) are passed in as explicit parameters; thread loops are modelled as
folds over the list of observations a loop iteration makes.
-/

namespace Jetson

/-! ## Rectangle overlap and intrusion check (`src/vision/postprocess.py`) -/

/-- An axis-aligned box `(x1, y1, x2, y2)` in pixel coordinates. -/
structure Box where
  x1 : Int
  y1 : Int
  x2 : Int
  y2 : Int
  deriving DecidableEq, Repr

/-- Well-formed box: `x1 ≤ x2` and `y1 ≤ y2`. -/
def Box.wf (b : Box) : Prop := b.x1 ≤ b.x2 ∧ b.y1 ≤ b.y2

instance (b : Box) : Decidable b.wf := by unfold Box.wf; infer_instance

/-- A point `(x, y)` lies in the closed rectangle spanned by the box. -/
def Box.contains (b : Box) (x y : Int) : Prop :=
  b.x1 ≤ x ∧ x ≤ b.x2 ∧ b.y1 ≤ y ∧ y ≤ b.y2

instance (b : Box) (x y : Int) : Decidable (b.contains x y) := by
  unfold Box.contains; infer_instance

/-- The overlap test from `check_intrusion` (postprocess.py line 27):
`not (x2 < wx1 or x1 > wx2 or y2 < wy1 or y1 > wy2)`. -/
def overlaps (b z : Box) : Bool :=
  !(decide (b.x2 < z.x1) || decide (b.x1 > z.x2) ||
    decide (b.y2 < z.y1) || decide (b.y1 > z.y2))

/-- A detection tuple `(x1, y1, x2, y2, cls_id, score)` as produced by
`YOLOInference.predict`. -/
structure Detection where
  x1 : Int
  y1 : Int
  x2 : Int
  y2 : Int
  classId : Int
  score : ℚ
  deriving DecidableEq, Repr

/-- The bounding box of a detection. -/
def Detection.box (d : Detection) : Box := ⟨d.x1, d.y1, d.x2, d.y2⟩

/-- Embedding of `check_intrusion` (postprocess.py lines 9–29): scans the detections and
reports whether any bounding box overlaps the warning zone. -/
def check_intrusion (detections : List Detection) (warning_zone : Box) : Bool :=
  detections.any (fun d => overlaps d.box warning_zone)

/-! ## YOLO prediction filter (`src/vision/yolo_infer.py`, `predict`) -/

/-- One raw box produced by the underlying model: coordinates, confidence
score and class id, before the person-class filter. -/
structure RawBox where
  x1 : Int
  y1 : Int
  x2 : Int
  y2 : Int
  score : ℚ
  cls : Int
  deriving DecidableEq, Repr

/-- Embedding of `YOLOInference.predict` (yolo_infer.py lines 48–85), with the model's
output passed in: `none` models an empty `results` list (return `[]`);
otherwise the loop keeps exactly the boxes whose class id is `0`. -/
def predict (boxes : Option (List RawBox)) : List Detection :=
  match boxes with
  | none => []
  | some bs =>
    bs.foldl
      (fun detections r =>
        if r.cls = 0 then
          detections ++ [⟨r.x1, r.y1, r.x2, r.y2, r.cls, r.score⟩]
        else detections)
      []

/-! ## Camera capture object (`src/hardware/camera.py`, `CameraCapture`) -/

/-- The mutable state of a `CameraCapture` object: `cap` is `none` before
`start` succeeds, `some opened` holds the underlying handle's opened flag;
`running` is the object's running flag. -/
structure CamState where
  cap : Option Bool
  running : Bool
  deriving DecidableEq, Repr

namespace CameraCapture

/-- Embedding of `CameraCapture.__init__`: no handle, not running. -/
def init : CamState := { cap := none, running := false }

/-- Embedding of `CameraCapture.read_frame` (camera.py lines 214–218): if the handle is
absent or the object is not running, return `(False, None)`; otherwise
delegate to the device read `devRead` on the handle. -/
def read_frame (devRead : Bool → Bool × Option Nat) (st : CamState) :
    Bool × Option Nat :=
  if st.cap = none ∨ st.running = false then (false, none)
  else
    match st.cap with
    | some h => devRead h
    | none => (false, none)

/-- Embedding of `CameraCapture.release` (camera.py lines 220–230): set `running` to
`False` and, if a handle exists, release it (its opened flag becomes
`false`); the handle reference itself is kept. -/
def release (st : CamState) : CamState :=
  { running := false, cap := st.cap.map (fun _ => false) }

end CameraCapture

/-! ## Shared state and the capture loop (`src/vision/yolo_infer.py`) -/

/-- The frame-channel half of `SharedState` (yolo_infer.py lines 88–101):
the latest frame (an opaque payload, `none` before the first publish) and
its sequence number, initialised to `-1`. -/
structure ChannelState where
  latest_frame : Option Nat
  latest_frame_seq : Int
  deriving DecidableEq, Repr

/-- Embedding of `SharedState.__init__`: no frame yet, sequence `-1`. -/
def ChannelState.init : ChannelState := { latest_frame := none, latest_frame_seq := -1 }

/-- One iteration of `capture_loop` (yolo_infer.py lines 112–121), applied
to the outcome `(ok, frame)` of `cap.read_frame()`: a failed read leaves
the channel unchanged (the loop sleeps and retries); a successful read
publishes the frame and increments the sequence by one. -/
def capture_step (st : ChannelState) (read : Bool × Nat) : ChannelState :=
  if read.1 then
    { latest_frame := some read.2, latest_frame_seq := st.latest_frame_seq + 1 }
  else st

/-- The capture loop run over a finite list of read outcomes, starting from
the freshly initialised shared state. -/
def capture_run (reads : List (Bool × Nat)) : ChannelState :=
  reads.foldl capture_step ChannelState.init

/-! ## The inference loop (`src/vision/yolo_infer.py`, `inference_loop`) -/

/-- The inference loop's local state: `last_processed_seq` (initialised to
`-infer_stride`) and `inference_count`. -/
structure InferState where
  last_processed_seq : Int
  inference_count : Nat
  deriving DecidableEq, Repr

/-- Embedding of `inference_loop`'s initial local state (yolo_infer.py lines 146–147). -/
def InferState.init (stride : Int) : InferState :=
  { last_processed_seq := -stride, inference_count := 0 }

/-- One iteration of `inference_loop` (yolo_infer.py lines 149–163),
applied to the snapshot it takes under the frame lock: `framePresent` is
whether `latest_frame is not None` and `seq` is `latest_frame_seq`. The
frame is processed (detection runs, the count increments, and
`last_processed_seq` becomes `seq`) exactly when the frame is present and
`seq - last_processed_seq >= infer_stride`; otherwise the iteration sleeps
and the state is unchanged. -/
def inference_step (stride : Int) (st : InferState) (framePresent : Bool) (seq : Int) :
    InferState :=
  if framePresent = true ∧ stride ≤ seq - st.last_processed_seq then
    { last_processed_seq := seq, inference_count := st.inference_count + 1 }
  else st

/-- The inference loop run over a finite list of snapshots
`(framePresent, seq)`, starting from the initial local state. -/
def inference_run (stride : Int) (obs : List (Bool × Int)) : InferState :=
  obs.foldl (fun st o => inference_step stride st o.1 o.2) (InferState.init stride)

/-- A scripted sequential run of one pipeline: for each capture read
outcome, the capture loop publishes into the channel, then the inference
loop examines the channel once. Returns the list of sequence numbers the
inference loop processed, in order. -/
def scripted_run (stride : Int) :
    List (Bool × Nat) → ChannelState → InferState → List Int
  | [], _, _ => []
  | r :: rest, ch, st =>
    let ch' := capture_step ch r
    let st' := inference_step stride st ch'.latest_frame.isSome ch'.latest_frame_seq
    if st'.inference_count = st.inference_count then
      scripted_run stride rest ch' st'
    else
      ch'.latest_frame_seq :: scripted_run stride rest ch' st'

/-- The processed-sequence trace of a scripted run started from the initial
channel and inference states. -/
def scripted_processed (stride : Int) (reads : List (Bool × Nat)) : List Int :=
  scripted_run stride reads ChannelState.init (InferState.init stride)

/-! ## Camera-open diagnosis (`src/hardware/camera.py`, lines 21–76) -/

/-- The error taxonomy of `errors/enums.py` (`CameraError`). -/
inductive CameraError where
  | OK
  | DEVICE_NOT_FOUND
  | DEVICE_BUSY
  | PERMISSION_DENIED
  | BACKEND_ERROR
  | UNKNOWN
  deriving DecidableEq, Repr

/-- Embedding of `diagnose_camera_error`, parametrised by the environment:
`opensDefault i` is whether `cv2.VideoCapture(i)` opens, and
`opensBackend i b` whether `cv2.VideoCapture(i, b)` opens; `backends` is
the platform-dependent fallback backend list. Steps, as in the source:
1. the requested index with the default backend — success is `OK`;
2. each fallback backend on the requested index — first success is
   `BACKEND_ERROR`;
3. probe indices `0..2` for any working camera (default backend);
4. if another camera was found and `camera_index >= 1`, or if no camera
   was found at all, `DEVICE_NOT_FOUND`; otherwise `DEVICE_BUSY`. -/
def diagnose_camera_error (opensDefault : Int → Bool) (opensBackend : Int → Nat → Bool)
    (backends : List Nat) (camera_index : Int) : CameraError :=
  if opensDefault camera_index then CameraError.OK
  else if backends.any (fun b => opensBackend camera_index b) then CameraError.BACKEND_ERROR
  else
    let any_camera_found := (List.range 3).any (fun idx => opensDefault (idx : Int))
    if any_camera_found ∧ camera_index ≥ 1 then CameraError.DEVICE_NOT_FOUND
    else if ¬ any_camera_found then CameraError.DEVICE_NOT_FOUND
    else CameraError.DEVICE_BUSY

/-! ## Orchestrator startup (`src/main.py`, lines 45–83) -/

/-- The camera-initialisation loop of `main` (lines 45–59) followed by the
thread-start section (lines 68–83), driven by `opensOk idx` — whether
`CameraCapture(idx).start(...)` succeeds. Result
`(cameras, released, threadsStarted)`: the cameras held open at the end,
the cameras released during the run, and whether the capture/inference
threads were started. On the first failing index the loop releases every
previously opened camera and returns (`main` returns before the thread
section); only when every index opened does the thread section run. -/
def startup_go (opensOk : Nat → Bool) :
    List Nat → List Nat → List Nat × List Nat × Bool
  | [], opened => (opened, [], true)
  | idx :: rest, opened =>
    if opensOk idx then startup_go opensOk rest (opened ++ [idx])
    else (opened, opened, false)

/-- Embedding of `main`'s startup over the configured camera index list, starting with
no cameras opened. -/
def main_startup (opensOk : Nat → Bool) (indices : List Nat) :
    List Nat × List Nat × Bool :=
  startup_go opensOk indices []

/-! ## Orchestrator shutdown (`src/main.py`, lines 174–198) -/

/-- The observable actions of `main`'s `finally` block, in order. A join
carries its timeout in milliseconds (`join(timeout=1.0)` is 1000 ms). -/
inductive ShutEvent where
  | setStop (pipeline : Nat)
  | joinCapture (pipeline : Nat) (timeoutMs : Nat)
  | joinInfer (pipeline : Nat) (timeoutMs : Nat)
  | releaseCam (pipeline : Nat)
  | destroyWindows
  deriving DecidableEq, Repr

/-- First loop of the `finally` block (lines 182–183): set the stop event
of every shared state. -/
def stop_phase (n : Nat) : List ShutEvent :=
  (List.range n).foldl (fun acc i => acc ++ [ShutEvent.setStop i]) []

/-- Second loop (lines 186–188): join each pipeline's capture thread and
then its inference thread, each with a 1.0-second timeout. -/
def join_phase (n : Nat) : List ShutEvent :=
  (List.range n).foldl
    (fun acc i => acc ++ [ShutEvent.joinCapture i 1000, ShutEvent.joinInfer i 1000]) []

/-- Third loop (lines 191–193): release every camera. -/
def release_phase (n : Nat) : List ShutEvent :=
  (List.range n).foldl (fun acc i => acc ++ [ShutEvent.releaseCam i]) []

/-- The whole `finally` block for `n` pipelines: stop signals, then joins,
then camera releases, then `cv2.destroyAllWindows()`. -/
def shutdown_trace (n : Nat) : List ShutEvent :=
  stop_phase n ++ join_phase n ++ release_phase n ++ [ShutEvent.destroyWindows]

/-! ## FPS counter (`src/utils/time_utils.py`, `FPSCounter`) -/

/-- The state of an `FPSCounter`; time is rational (simulated seconds). -/
structure FPSCounter where
  frame_count : Nat
  start_time : ℚ
  fps : ℚ
  deriving DecidableEq, Repr

/-- Embedding of `FPSCounter.__init__` at creation time `t`. -/
def FPSCounter.init (t : ℚ) : FPSCounter := { frame_count := 0, start_time := t, fps := 0 }

/-- Embedding of `FPSCounter.update` (time_utils.py lines 26–36) with the current time
`now` passed in: increment the count; if at least one second elapsed since
the window start, recompute `fps = count / elapsed`, reset the count to 0
and the window start to `now`; return the (possibly unchanged) `fps`. -/
def FPSCounter.update (c : FPSCounter) (now : ℚ) : FPSCounter × ℚ :=
  let count := c.frame_count + 1
  let elapsed := now - c.start_time
  if 1 ≤ elapsed then
    let fps := (count : ℚ) / elapsed
    ({ frame_count := 0, start_time := now, fps := fps }, fps)
  else
    ({ frame_count := count, start_time := c.start_time, fps := c.fps }, c.fps)

/-- A sequence of `update` calls at the given times; returns the final
state and the list of returned rates. -/
def FPSCounter.run (c : FPSCounter) : List ℚ → FPSCounter × List ℚ
  | [] => (c, [])
  | t :: ts =>
    let p := c.update t
    let q := p.1.run ts
    (q.1, p.2 :: q.2)

/-! ## Helper lemmas -/

/-- Two booleans agreeing as propositions are equal. -/
lemma bool_eq_of_iff {p q : Bool} (h : p = true ↔ q = true) : p = q := by
  cases p <;> cases q <;> simp_all

/-- Unfolding of the overlap test into propositional form. -/
lemma overlaps_eq_true_iff (b z : Box) :
    overlaps b z = true ↔
      ¬(b.x2 < z.x1) ∧ ¬(z.x2 < b.x1) ∧ ¬(b.y2 < z.y1) ∧ ¬(z.y2 < b.y1) := by
  simp only [overlaps, Bool.not_eq_true', Bool.or_eq_false_iff,
    decide_eq_false_iff_not, gt_iff_lt]
  tauto

/-! ## Claim theorems -/

/-- C5: the axis-aligned-rectangle overlap predicate used for intrusion
detection is symmetric under swapping box and zone; for well-formed
rectangles it returns `true` exactly when the two closed rectangles share
a point (so fully inside, partially inside, and exactly touching all give
`true`); a box sharing no point with the zone (strictly outside) gives
`false`, and a box fully inside the zone gives `true`. -/
theorem overlaps_symm_and_point_characterisation :
    (∀ b z : Box, overlaps b z = overlaps z b) ∧
    (∀ b z : Box, b.wf → z.wf →
      (overlaps b z = true ↔ ∃ x y : Int, b.contains x y ∧ z.contains x y)) ∧
    (∀ b z : Box, b.wf → z.wf →
      (∀ x y : Int, ¬(b.contains x y ∧ z.contains x y)) →
      overlaps b z = false) ∧
    (∀ b z : Box, b.wf →
      (∀ x y : Int, b.contains x y → z.contains x y) → overlaps b z = true) := by
  have hsymm : ∀ b z : Box, overlaps b z = overlaps z b := by
    intro b z
    apply bool_eq_of_iff
    rw [overlaps_eq_true_iff, overlaps_eq_true_iff]
    tauto
  have hiff : ∀ b z : Box, b.wf → z.wf →
      (overlaps b z = true ↔ ∃ x y : Int, b.contains x y ∧ z.contains x y) := by
    intro b z hb hz
    obtain ⟨hbx, hby⟩ := hb
    obtain ⟨hzx, hzy⟩ := hz
    rw [overlaps_eq_true_iff]
    constructor
    · rintro ⟨h1, h2, h3, h4⟩
      refine ⟨max b.x1 z.x1, max b.y1 z.y1, ?_, ?_⟩ <;>
        · refine ⟨?_, ?_, ?_, ?_⟩ <;> omega
    · rintro ⟨x, y, ⟨hb1, hb2, hb3, hb4⟩, ⟨hz1, hz2, hz3, hz4⟩⟩
      refine ⟨?_, ?_, ?_, ?_⟩ <;> omega
  refine ⟨hsymm, hiff, ?_, ?_⟩
  · intro b z hb hz h
    cases hov : overlaps b z
    · rfl
    · exfalso
      obtain ⟨x, y, hpt⟩ := (hiff b z hb hz).mp hov
      exact h x y hpt
  · intro b z hb hsub
    obtain ⟨hbx, hby⟩ := hb
    have hpt : z.contains b.x1 b.y1 := hsub b.x1 b.y1 ⟨le_refl _, hbx, le_refl _, hby⟩
    obtain ⟨hz1, hz2, hz3, hz4⟩ := hpt
    rw [overlaps_eq_true_iff]
    refine ⟨?_, ?_, ?_, ?_⟩ <;> omega

/-- Witness for C5 at concrete rectangles: a partially overlapping pair
with the hypotheses discharged. -/
theorem overlaps_symm_and_point_characterisation_witness :
    Box.wf ⟨0, 0, 2, 2⟩ ∧ Box.wf ⟨1, 1, 3, 3⟩ ∧
    overlaps ⟨0, 0, 2, 2⟩ ⟨1, 1, 3, 3⟩ = overlaps ⟨1, 1, 3, 3⟩ ⟨0, 0, 2, 2⟩ ∧
    (overlaps ⟨0, 0, 2, 2⟩ ⟨1, 1, 3, 3⟩ = true ↔
      ∃ x y : Int, Box.contains ⟨0, 0, 2, 2⟩ x y ∧ Box.contains ⟨1, 1, 3, 3⟩ x y) :=
  ⟨by decide, by decide,
    overlaps_symm_and_point_characterisation.1 ⟨0, 0, 2, 2⟩ ⟨1, 1, 3, 3⟩,
    overlaps_symm_and_point_characterisation.2.1 ⟨0, 0, 2, 2⟩ ⟨1, 1, 3, 3⟩
      (by decide) (by decide)⟩

/-- The `predict` fold only ever appends class-0 detections. -/
lemma predict_foldl_classId (bs : List RawBox) (acc : List Detection)
    (hacc : ∀ d ∈ acc, d.classId = 0) :
    ∀ d ∈ bs.foldl
        (fun detections r =>
          if r.cls = 0 then
            detections ++ [⟨r.x1, r.y1, r.x2, r.y2, r.cls, r.score⟩]
          else detections)
        acc,
      d.classId = 0 := by
  induction bs generalizing acc with
  | nil => exact hacc
  | cons r rest ih =>
    simp only [List.foldl_cons]
    apply ih
    intro d hd
    by_cases hc : r.cls = 0
    · rw [if_pos hc] at hd
      rcases List.mem_append.mp hd with hmem | hmem
      · exact hacc d hmem
      · simp only [List.mem_singleton] at hmem
        subst hmem
        exact hc
    · rw [if_neg hc] at hd
      exact hacc d hd

/-- C9: every detection returned by `YOLOInference.predict` has class id 0
(the person class); non-person detections from the underlying model are
filtered out. -/
theorem predict_only_person_class (boxes : Option (List RawBox)) (d : Detection)
    (hd : d ∈ predict boxes) : d.classId = 0 := by
  cases boxes with
  | none => simp [predict] at hd
  | some bs =>
    exact predict_foldl_classId bs [] (by intro d hd; simp at hd) d hd

/-- Witness for C9: a model output mixing person and non-person boxes;
the surviving detection has class id 0. -/
theorem predict_only_person_class_witness :
    (⟨1, 2, 3, 4, 0, 1⟩ : Detection) ∈
      predict (some [⟨1, 2, 3, 4, 1, 0⟩, ⟨5, 6, 7, 8, 1, 3⟩]) ∧
    (⟨1, 2, 3, 4, 0, 1⟩ : Detection).classId = 0 :=
  ⟨by decide,
    predict_only_person_class (some [⟨1, 2, 3, 4, 1, 0⟩, ⟨5, 6, 7, 8, 1, 3⟩])
      ⟨1, 2, 3, 4, 0, 1⟩ (by decide)⟩

/-- C10: `CameraCapture.read_frame` returns `(False, None)` whenever the
handle is absent or the object is not running, for every possible device
read behaviour — the device is not consulted. -/
theorem read_frame_safe_when_not_running (devRead : Bool → Bool × Option Nat)
    (st : CamState) (h : st.cap = none ∨ st.running = false) :
    CameraCapture.read_frame devRead st = (false, none) := by
  unfold CameraCapture.read_frame
  rw [if_pos h]

/-- Witness for C10: a released object (running flag cleared) with a live
device read behind it still returns `(False, None)`. -/
theorem read_frame_safe_when_not_running_witness :
    ((CamState.mk (some true) false).cap = none ∨
      (CamState.mk (some true) false).running = false) ∧
    CameraCapture.read_frame (fun _ => (true, some 7)) ⟨some true, false⟩ =
      (false, none) :=
  ⟨Or.inr rfl,
    read_frame_safe_when_not_running (fun _ => (true, some 7)) ⟨some true, false⟩
      (Or.inr rfl)⟩

/-- Folding the capture step adds one to the sequence number per
successful read. -/
lemma capture_foldl_seq (reads : List (Bool × Nat)) (st : ChannelState) :
    (reads.foldl capture_step st).latest_frame_seq =
      st.latest_frame_seq + ((reads.filter (fun r => r.1)).length : Int) := by
  induction reads generalizing st with
  | nil => simp
  | cons r rest ih =>
    simp only [List.foldl_cons, List.filter_cons]
    cases hr : r.1 with
    | false =>
      simp only [Bool.false_eq_true, if_false]
      rw [ih]
      have : capture_step st r = st := by
        unfold capture_step
        rw [hr]
        simp
      rw [this]
    | true =>
      simp only [if_true]
      rw [ih]
      have : (capture_step st r).latest_frame_seq = st.latest_frame_seq + 1 := by
        unfold capture_step
        rw [hr]
        simp
      rw [this]
      simp only [List.length_cons]
      push_cast
      ring

/-- C2: the frame sequence number starts at `-1`, a successful read
publishes the frame and increments the sequence by exactly one, a failed
read changes nothing; hence after the reads the sequence equals `-1` plus
the number of successful publishes, and the sequence observed after a
longer prefix of reads is never smaller (snapshots are non-decreasing). -/
theorem frame_seq_monotone_contract :
    ChannelState.init.latest_frame_seq = -1 ∧
    ChannelState.init.latest_frame = none ∧
    (∀ (st : ChannelState) (f : Nat),
      capture_step st (true, f) =
        { latest_frame := some f, latest_frame_seq := st.latest_frame_seq + 1 }) ∧
    (∀ (st : ChannelState) (f : Nat), capture_step st (false, f) = st) ∧
    (∀ reads : List (Bool × Nat),
      (capture_run reads).latest_frame_seq =
        -1 + ((reads.filter (fun r => r.1)).length : Int)) ∧
    (∀ l1 l2 : List (Bool × Nat),
      (capture_run l1).latest_frame_seq ≤
        (capture_run (l1 ++ l2)).latest_frame_seq) := by
  refine ⟨rfl, rfl, ?_, ?_, ?_, ?_⟩
  · intro st f
    unfold capture_step
    simp
  · intro st f
    unfold capture_step
    simp
  · intro reads
    unfold capture_run
    rw [capture_foldl_seq]
    rfl
  · intro l1 l2
    unfold capture_run
    rw [List.foldl_append, capture_foldl_seq l2 (l1.foldl capture_step ChannelState.init)]
    have : (0 : Int) ≤ ((l2.filter (fun r => r.1)).length : Int) := Int.ofNat_nonneg _
    omega

/-- Invariant of the inference fold: the last processed sequence stays at
most `M - 1` and dominates `inference_count * stride - stride`. -/
lemma inference_foldl_invariant (k M : Nat) (obs : List (Bool × Int))
    (hobs : ∀ o ∈ obs, o.1 = true → 0 ≤ o.2 ∧ o.2 ≤ (M : Int) - 1)
    (st : InferState)
    (h1 : st.last_processed_seq ≤ (M : Int) - 1)
    (h2 : (st.inference_count : Int) * k ≤ st.last_processed_seq + k) :
    (obs.foldl (fun st o => inference_step k st o.1 o.2) st).last_processed_seq ≤
        (M : Int) - 1 ∧
      ((obs.foldl (fun st o => inference_step k st o.1 o.2) st).inference_count : Int) * k ≤
        (obs.foldl (fun st o => inference_step k st o.1 o.2) st).last_processed_seq + k := by
  induction obs generalizing st with
  | nil => exact ⟨h1, h2⟩
  | cons o rest ih =>
    simp only [List.foldl_cons]
    have hrest : ∀ o' ∈ rest, o'.1 = true → 0 ≤ o'.2 ∧ o'.2 ≤ (M : Int) - 1 :=
      fun o' ho' => hobs o' (List.mem_cons_of_mem o ho')
    unfold inference_step
    by_cases hc : o.1 = true ∧ (k : Int) ≤ o.2 - st.last_processed_seq
    · rw [if_pos hc]
      obtain ⟨hp, hk⟩ := hc
      obtain ⟨hpos, hub⟩ := hobs o (List.mem_cons_self o rest) hp
      apply ih hrest
      · exact hub
      · have hcast : ((st.inference_count + 1 : Nat) : Int) * k =
            (st.inference_count : Int) * k + k := by push_cast; ring
        simp only [hcast]
        have : st.last_processed_seq + k ≤ o.2 := by omega
        linarith [h2]
    · rw [if_neg hc]
      exact ih hrest st h1 h2

/-- C1: one inference-loop iteration runs detection exactly when the
snapshot shows a present frame and `seq - last_processed_seq ≥ stride`
(and then sets `last_processed_seq = seq`), is a no-op otherwise, and —
for any capture sequence of `M` published frames (sequence numbers
`0 .. M-1`) and any stride `k ≥ 1` — the loop, started from
`last_processed_seq = -k`, performs at most `M / k + 1` inference
invocations over any list of snapshots it takes. -/
theorem inference_stride_exact_and_bound (k M : Nat) (hk : 1 ≤ k)
    (obs : List (Bool × Int))
    (hobs : ∀ o ∈ obs, o.1 = true → 0 ≤ o.2 ∧ o.2 ≤ (M : Int) - 1) :
    (∀ (st : InferState) (p : Bool) (s : Int),
      ((inference_step k st p s).inference_count = st.inference_count + 1 ∧
        (inference_step k st p s).last_processed_seq = s) ↔
      (p = true ∧ (k : Int) ≤ s - st.last_processed_seq)) ∧
    (∀ (st : InferState) (p : Bool) (s : Int),
      ¬(p = true ∧ (k : Int) ≤ s - st.last_processed_seq) →
        inference_step k st p s = st) ∧
    (inference_run k obs).inference_count ≤ M / k + 1 := by
  have hstep : ∀ (st : InferState) (p : Bool) (s : Int),
      ((inference_step k st p s).inference_count = st.inference_count + 1 ∧
        (inference_step k st p s).last_processed_seq = s) ↔
      (p = true ∧ (k : Int) ≤ s - st.last_processed_seq) := by
    intro st p s
    unfold inference_step
    by_cases hc : p = true ∧ (k : Int) ≤ s - st.last_processed_seq
    · rw [if_pos hc]
      exact ⟨fun _ => hc, fun _ => ⟨rfl, rfl⟩⟩
    · rw [if_neg hc]
      constructor
      · rintro ⟨h1, _⟩
        omega
      · intro h
        exact absurd h hc
  have hnoop : ∀ (st : InferState) (p : Bool) (s : Int),
      ¬(p = true ∧ (k : Int) ≤ s - st.last_processed_seq) →
        inference_step k st p s = st := by
    intro st p s hc
    unfold inference_step
    rw [if_neg hc]
  refine ⟨hstep, hnoop, ?_⟩
  have hinit1 : (InferState.init k).last_processed_seq ≤ (M : Int) - 1 := by
    unfold InferState.init
    simp only
    omega
  have hinit2 : ((InferState.init k).inference_count : Int) * k ≤
      (InferState.init k).last_processed_seq + k := by
    unfold InferState.init
    simp
  obtain ⟨hfin1, hfin2⟩ :=
    inference_foldl_invariant k M obs hobs (InferState.init k) hinit1 hinit2
  set n := (inference_run k obs).inference_count with hn
  have hbound : (n : Int) * k ≤ (M : Int) + k - 1 := by
    have := hfin1
    have := hfin2
    unfold inference_run at hn
    rw [hn]
    linarith
  have hnat : n * k ≤ M + k - 1 := by
    have hMk : 1 ≤ M + k := by omega
    zify [hMk]
    exact_mod_cast hbound
  have hkpos : 0 < k := hk
  have hdiv : n ≤ (M + k - 1) / k := (Nat.le_div_iff_mul_le hkpos).mpr hnat
  calc n ≤ (M + k - 1) / k := hdiv
    _ ≤ (M + k) / k := Nat.div_le_div_right (by omega)
    _ = M / k + 1 := Nat.add_div_right M hkpos

/-- Witness for C1 at stride 3 over a 10-frame capture sequence. -/
theorem inference_stride_exact_and_bound_witness :
    1 ≤ 3 ∧
    (inference_run 3 [(true, 0), (true, 1), (true, 2), (true, 3), (true, 4),
      (true, 5), (true, 6), (true, 7), (true, 8), (true, 9)]).inference_count ≤
      10 / 3 + 1 :=
  ⟨by decide,
    (inference_stride_exact_and_bound 3 10 (by decide)
      [(true, 0), (true, 1), (true, 2), (true, 3), (true, 4),
        (true, 5), (true, 6), (true, 7), (true, 8), (true, 9)]
      (by decide)).2.2⟩

/-- C4: in a scripted sequential run where the capture loop publishes ten
frames (sequence numbers 0..9) and the inference loop examines the channel
after every publish, stride 3 processes exactly the frames with sequence
numbers 0, 3, 6, 9, in that order. -/
theorem scripted_ten_frame_stride3 :
    scripted_processed 3 (List.replicate 10 (true, 0)) = [0, 3, 6, 9] := by
  decide

/-- Counterexample to C3 as stated: in a simulated environment whose only
working camera is index 1, diagnosing requested index 0 returns
`DEVICE_BUSY`, not `DEVICE_NOT_FOUND` — the "other index works" branch of
the code fires only for requested indices ≥ 1. -/
theorem diagnose_index_zero_counterexample :
    diagnose_camera_error (fun i => i == 1) (fun i _ => i == 1) [0, 1, 2] 0 =
      CameraError.DEVICE_BUSY ∧
    CameraError.DEVICE_BUSY ≠ CameraError.DEVICE_NOT_FOUND := by
  decide

/-- C3 (amended): in a simulated environment `works` (the same index
either opens with every backend or with none), diagnosis returns
`DEVICE_NOT_FOUND` when no camera works at all, and also when some probe
index works but the requested one does not — provided the requested index
is at least 1; when the requested index is 0 (or negative) and another
probe index works, it returns `DEVICE_BUSY` instead. -/
theorem diagnose_amended (works : Int → Bool) (backends : List Nat)
    (camera_index : Int) :
    ((∀ i, works i = false) →
      diagnose_camera_error works (fun i _ => works i) backends camera_index =
        CameraError.DEVICE_NOT_FOUND) ∧
    (works camera_index = false → 1 ≤ camera_index →
      diagnose_camera_error works (fun i _ => works i) backends camera_index =
        CameraError.DEVICE_NOT_FOUND) ∧
    (works camera_index = false → camera_index < 1 →
      ((List.range 3).any (fun idx => works (idx : Int))) = true →
      diagnose_camera_error works (fun i _ => works i) backends camera_index =
        CameraError.DEVICE_BUSY) := by
  refine ⟨?_, ?_, ?_⟩
  · intro hnone
    unfold diagnose_camera_error
    rw [if_neg (by simp [hnone]), if_neg (by simp [hnone])]
    simp only
    rw [if_neg, if_pos]
    · simp [hnone]
    · simp [hnone]
  · intro hreq hge
    unfold diagnose_camera_error
    rw [if_neg (by simp [hreq]), if_neg (by simp [hreq])]
    simp only
    by_cases hany : ((List.range 3).any (fun idx => works (idx : Int))) = true
    · rw [if_pos ⟨hany, hge⟩]
    · rw [if_neg (by intro hcontra; exact hany hcontra.1), if_pos]
      simpa using hany
  · intro hreq hlt hany
    unfold diagnose_camera_error
    rw [if_neg (by simp [hreq]), if_neg (by simp [hreq])]
    simp only
    rw [if_neg (by intro hcontra; omega), if_neg (by simp [hany])]

/-- Witness for the amended C3: working camera only at index 1, requested
index 2 — diagnosis gives `DEVICE_NOT_FOUND`. -/
theorem diagnose_amended_witness :
    ((fun i : Int => i == 1) 2 = false) ∧ (1 : Int) ≤ 2 ∧
    diagnose_camera_error (fun i : Int => i == 1)
        (fun i _ => (fun i : Int => i == 1) i) [0, 1, 2] 2 =
      CameraError.DEVICE_NOT_FOUND :=
  ⟨by decide, by decide,
    (diagnose_amended (fun i : Int => i == 1) [0, 1, 2] 2).2.1 (by decide)
      (by decide)⟩

/-- Unfolding of the startup loop: a fully successful index list opens
everything and reaches the thread section; otherwise the loop stops at the
first failure, keeping (and releasing) exactly the successful prefix. -/
lemma startup_go_spec (opensOk : Nat → Bool) (l : List Nat) (acc : List Nat) :
    startup_go opensOk l acc =
      if l.all opensOk then (acc ++ l, [], true)
      else (acc ++ l.takeWhile opensOk, acc ++ l.takeWhile opensOk, false) := by
  induction l generalizing acc with
  | nil => simp [startup_go]
  | cons idx rest ih =>
    unfold startup_go
    cases hidx : opensOk idx with
    | false =>
      simp only [Bool.false_eq_true, if_false, List.all_cons, hidx,
        Bool.false_and, List.takeWhile_cons, List.append_nil]
    | true =>
      simp only [if_true, List.all_cons, hidx, Bool.true_and,
        List.takeWhile_cons]
      rw [ih]
      by_cases hall : rest.all opensOk = true
      · rw [if_pos hall, if_pos hall]
        simp
      · rw [if_neg hall, if_neg hall]
        simp

/-- C6: startup is all-or-nothing — if every camera index opens, `main`
keeps them all, releases none, and starts the worker threads; if some
index fails, exactly the successfully opened prefix is held and that same
prefix is released, and the thread section is never reached. -/
theorem startup_all_or_nothing (opensOk : Nat → Bool) (indices : List Nat) :
    main_startup opensOk indices =
      if indices.all opensOk then (indices, [], true)
      else (indices.takeWhile opensOk, indices.takeWhile opensOk, false) := by
  unfold main_startup
  rw [startup_go_spec]
  by_cases hall : indices.all opensOk = true
  · rw [if_pos hall, if_pos hall]
    simp
  · rw [if_neg hall, if_neg hall]
    simp

/-- A left fold that appends a block per element produces the
concatenation of the blocks after the accumulator. -/
lemma foldl_append_blocks {α β : Type} (g : α → List β) (l : List α)
    (acc : List β) :
    l.foldl (fun acc i => acc ++ g i) acc = acc ++ l.flatMap g := by
  induction l generalizing acc with
  | nil => simp
  | cons a rest ih =>
    simp only [List.foldl_cons, List.flatMap_cons]
    rw [ih]
    simp

/-- The stop phase is the list of stop signals for pipelines `0..n-1`. -/
lemma stop_phase_eq (n : Nat) :
    stop_phase n = (List.range n).flatMap (fun i => [ShutEvent.setStop i]) := by
  unfold stop_phase
  rw [foldl_append_blocks (fun i => [ShutEvent.setStop i])]
  simp

/-- The join phase is the per-pipeline pair of capture/inference joins. -/
lemma join_phase_eq (n : Nat) :
    join_phase n =
      (List.range n).flatMap
        (fun i => [ShutEvent.joinCapture i 1000, ShutEvent.joinInfer i 1000]) := by
  unfold join_phase
  rw [foldl_append_blocks
    (fun i => [ShutEvent.joinCapture i 1000, ShutEvent.joinInfer i 1000])]
  simp

/-- The release phase is the list of camera releases for `0..n-1`. -/
lemma release_phase_eq (n : Nat) :
    release_phase n = (List.range n).flatMap (fun i => [ShutEvent.releaseCam i]) := by
  unfold release_phase
  rw [foldl_append_blocks (fun i => [ShutEvent.releaseCam i])]
  simp

/-- C7: the shutdown sequence is the stop signals on every channel, then
the thread joins (capture then inference per pipeline, each with a 1000 ms
timeout), then the camera releases, then the display teardown — every
stop precedes every join, every join precedes every release, and each
phase covers all `n` pipelines; and `CameraCapture.release` is idempotent:
a second call leaves the object state unchanged. -/
theorem shutdown_order_and_release_idempotent (n : Nat) :
    shutdown_trace n =
      stop_phase n ++ join_phase n ++ release_phase n ++
        [ShutEvent.destroyWindows] ∧
    (∀ e ∈ stop_phase n, ∃ i, i < n ∧ e = ShutEvent.setStop i) ∧
    (∀ i, i < n → ShutEvent.setStop i ∈ stop_phase n) ∧
    (∀ e ∈ join_phase n, ∃ i, i < n ∧
      (e = ShutEvent.joinCapture i 1000 ∨ e = ShutEvent.joinInfer i 1000)) ∧
    (∀ i, i < n → ShutEvent.joinCapture i 1000 ∈ join_phase n ∧
      ShutEvent.joinInfer i 1000 ∈ join_phase n) ∧
    (∀ e ∈ release_phase n, ∃ i, i < n ∧ e = ShutEvent.releaseCam i) ∧
    (∀ i, i < n → ShutEvent.releaseCam i ∈ release_phase n) ∧
    (∀ st : CamState,
      CameraCapture.release (CameraCapture.release st) =
        CameraCapture.release st) := by
  refine ⟨rfl, ?_, ?_, ?_, ?_, ?_, ?_, ?_⟩
  · intro e he
    rw [stop_phase_eq] at he
    obtain ⟨i, hi, hmem⟩ := List.mem_flatMap.mp he
    simp only [List.mem_singleton] at hmem
    exact ⟨i, List.mem_range.mp hi, hmem⟩
  · intro i hi
    rw [stop_phase_eq]
    exact List.mem_flatMap.mpr ⟨i, List.mem_range.mpr hi, by simp⟩
  · intro e he
    rw [join_phase_eq] at he
    obtain ⟨i, hi, hmem⟩ := List.mem_flatMap.mp he
    simp only [List.mem_cons, List.mem_singleton, List.not_mem_nil, or_false]
      at hmem
    exact ⟨i, List.mem_range.mp hi, hmem⟩
  · intro i hi
    rw [join_phase_eq]
    constructor
    · exact List.mem_flatMap.mpr ⟨i, List.mem_range.mpr hi, by simp⟩
    · exact List.mem_flatMap.mpr ⟨i, List.mem_range.mpr hi, by simp⟩
  · intro e he
    rw [release_phase_eq] at he
    obtain ⟨i, hi, hmem⟩ := List.mem_flatMap.mp he
    simp only [List.mem_singleton] at hmem
    exact ⟨i, List.mem_range.mp hi, hmem⟩
  · intro i hi
    rw [release_phase_eq]
    exact List.mem_flatMap.mpr ⟨i, List.mem_range.mpr hi, by simp⟩
  · intro st
    unfold CameraCapture.release
    cases st.cap <;> simp

/-- Witness for C7 at two pipelines: the stop signal of pipeline 1 is in
the stop phase, and releasing a started camera twice equals releasing it
once. -/
theorem shutdown_order_and_release_idempotent_witness :
    (1 < 2 ∧ ShutEvent.setStop 1 ∈ stop_phase 2) ∧
    CameraCapture.release (CameraCapture.release ⟨some true, true⟩) =
      CameraCapture.release ⟨some true, true⟩ := by
  have h := shutdown_order_and_release_idempotent 2
  exact ⟨⟨by decide, h.2.2.1 1 (by decide)⟩, h.2.2.2.2.2.2.2 ⟨some true, true⟩⟩

/-- Within a window that started at `t0` and has not yet lasted a second,
every `update` keeps `start_time = t0` and `fps = 0` from the initial
state, so every returned rate is 0. -/
lemma fps_run_zero (t0 : ℚ) (ts : List ℚ) (h : ∀ t ∈ ts, t - t0 < 1)
    (c : FPSCounter) (hst : c.start_time = t0) (hf : c.fps = 0) :
    ∀ r ∈ (c.run ts).2, r = 0 := by
  induction ts generalizing c with
  | nil => simp [FPSCounter.run]
  | cons t rest ih =>
    intro r hr
    have ht : t - t0 < 1 := h t (List.mem_cons_self t rest)
    have hrest : ∀ t' ∈ rest, t' - t0 < 1 :=
      fun t' ht' => h t' (List.mem_cons_of_mem t ht')
    unfold FPSCounter.run at hr
    simp only at hr
    have hupd : c.update t =
        ({ frame_count := c.frame_count + 1, start_time := c.start_time,
           fps := c.fps }, c.fps) := by
      unfold FPSCounter.update
      rw [if_neg (by rw [hst]; intro hcontra; linarith)]
    rw [hupd] at hr
    simp only [List.mem_cons] at hr
    rcases hr with hr | hr
    · rw [hr, hf]
    · exact ih hrest ⟨c.frame_count + 1, c.start_time, c.fps⟩ hst hf r hr

/-- C8: `FPSCounter.update` increments the count on every call; on a call
with at least one second elapsed since the window start it returns
`count / elapsed` (with the current call counted) and resets the window
(count 0, window start to the current time); on a call within the window
it returns the previously computed rate unchanged and only increments the
count; before the first window completes, every call returns 0. -/
theorem fps_counter_contract (c : FPSCounter) (now t0 : ℚ) (ts : List ℚ) :
    (1 ≤ now - c.start_time →
      c.update now =
        ({ frame_count := 0, start_time := now,
           fps := ((c.frame_count + 1 : Nat) : ℚ) / (now - c.start_time) },
         ((c.frame_count + 1 : Nat) : ℚ) / (now - c.start_time))) ∧
    (now - c.start_time < 1 →
      c.update now =
        ({ frame_count := c.frame_count + 1, start_time := c.start_time,
           fps := c.fps }, c.fps)) ∧
    (FPSCounter.init t0).fps = 0 ∧
    ((∀ t ∈ ts, t - t0 < 1) → ∀ r ∈ ((FPSCounter.init t0).run ts).2, r = 0) := by
  refine ⟨?_, ?_, rfl, ?_⟩
  · intro h
    unfold FPSCounter.update
    rw [if_pos h]
  · intro h
    unfold FPSCounter.update
    rw [if_neg (by intro hcontra; linarith)]
  · intro h
    exact fps_run_zero t0 ts h (FPSCounter.init t0) rfl rfl

/-- Witness for C8, mirroring the 30-updates-in-one-second scenario: the
30th call at the 1-second boundary returns 30. -/
theorem fps_counter_contract_witness :
    (1 : ℚ) ≤ 1 - (FPSCounter.mk 29 0 0).start_time ∧
    (FPSCounter.update ⟨29, 0, 0⟩ 1).2 = 30 := by
  have h := (fps_counter_contract ⟨29, 0, 0⟩ 1 0 []).1 (by norm_num)
  constructor
  · norm_num
  · rw [h]
    norm_num

end Jetson
